import Mathlib

/-!
Verification development for the Google-Maps business scraper.

The Python sources are shallowly embedded here:
* Python strings are `List Char` (`Str`);
* Python `set` objects are modelled by the list of their elements in
  first-insertion order (`insertNew`), together with an arbitrary
  iteration-order oracle `σ : List Str → List Str` constrained by
  `SetOrder σ` (CPython iterates a set of strings in a hash-dependent
  order that is some permutation of its elements, not insertion order);
* the Selenium / lxml page-query surface is an external collaborator, so
  each DOM scan is an oracle parameter (`scan : Nat → List Str` gives the
  hrefs the XPath query returns on pass `k`, and so on); where a query
  string itself guarantees a property of its results (an XPath
  `contains(@href, ...)` filter, a JS `href*=` selector, a regex whose
  every match contains a literal), that guarantee appears as a hypothesis;
* Python regex `findall` results are oracle inputs to the contact parser:
  the parser's own filtering, validation, normalization, deduplication and
  capping (the code under verification) are embedded exactly.
-/

namespace GMapScraper

/-- Python strings, embedded as their character lists. -/
abbrev Str := List Char

/-- Python substring test `pat in hay`. -/
def strContains (hay pat : Str) : Bool :=
  pat.isPrefixOf hay ||
    match hay with
    | [] => false
    | _ :: t => strContains t pat

/-- Python `re.sub(r'[^\d]', '', s)`: keep only decimal digits. -/
def digitsOnly (s : Str) : Str := s.filter (fun c => c.isDigit)

/-- Python `re.sub(r'[^\d+]', '', s)`: keep only digits and plus signs
(the cleaning step of the phone validator in `extract_contacts_from_text`). -/
def cleanPlus (s : Str) : Str := s.filter (fun c => c.isDigit || c == '+')

/-- Python `str.strip()`: drop leading and trailing whitespace. -/
def pyStrip (s : Str) : Str :=
  ((s.dropWhile Char.isWhitespace).reverse.dropWhile Char.isWhitespace).reverse

/-- Python `str.lower()`. -/
def pyLower (s : Str) : Str := s.map Char.toLower

/-- Insertion into the model of a Python `set`: membership is exact string
equality; a new element goes to the end, so the model list is always in
first-insertion (first-discovery) order. -/
def insertNew (l : List Str) (x : Str) : List Str :=
  if x ∈ l then l else l ++ [x]

/-- Python `list(dict.fromkeys(l))`: deduplicate keeping the first
occurrence of each element, preserving order. -/
def dedupFirst (l : List Str) : List Str := l.foldl insertNew []

/-- A legitimate iteration order for Python sets: iterating a set yields
some permutation of its elements (which permutation depends on string
hashes, so it is an oracle). -/
def SetOrder (f : List Str → List Str) : Prop :=
  ∀ l : List Str, (f l).Perm l

/-- The set-iteration oracles one call of `extract_contacts_from_text`
consumes: `se` orders `for email in emails`, `se2` orders
`list(set(valid_emails))`, `sp` orders `for phone in phones`, `sp2` orders
`list(set(valid_phones))`. -/
structure SetOrders where
  se : List Str → List Str
  se2 : List Str → List Str
  sp : List Str → List Str
  sp2 : List Str → List Str

/-- All four oracles of a `SetOrders` are permutations. -/
def GoodOrders (o : SetOrders) : Prop :=
  SetOrder o.se ∧ SetOrder o.se2 ∧ SetOrder o.sp ∧ SetOrder o.sp2

/-- The identity iteration order (one possible hash order). -/
def idOrders : SetOrders := ⟨id, id, id, id⟩

/-- Result of `extract_contacts_from_text`: the dict
`{'emails': ..., 'phones': ...}`. -/
structure ContactBundle where
  emails : List Str
  phones : List Str
  deriving DecidableEq

/-! ## Contact parser (`main.py`, `AdvancedContactExtractor.extract_contacts_from_text`)

The three email regexes of `self.email_patterns` each have at most one
capture group, so `findall` returns plain strings; `emailMatches` is their
concatenated match lists in pattern order.  The first phone regex has
three capture groups, so its `findall` returns triples (`phoneTuples`);
the other three return strings (`phoneStrs`, concatenated in pattern
order). -/

/-- The loop `for pattern in self.email_patterns: ... emails.add(match)`:
build the `emails` set in first-insertion order. -/
def emailsSetOf (ms : List Str) : List Str := ms.foldl insertNew []

/-- The phone-collection loops: a tuple match is joined with `''.join` and
inserted if its length is at least 10; a string match is inserted (raw) if
its digit-stripped form has length at least 10. -/
def phonesSetOf (tuples : List (Str × Str × Str)) (strs : List Str) : List Str :=
  let s1 := tuples.foldl
    (fun acc t =>
      let phone := t.1 ++ t.2.1 ++ t.2.2
      if 10 ≤ phone.length then insertNew acc phone else acc) []
  strs.foldl
    (fun acc m => if 10 ≤ (digitsOnly m).length then insertNew acc m else acc) s1

/-- The email validation test: `'@' in email and '.' in email and
len(email) > 5` and no excluded fragment (`noreply`, `donotreply`,
`no-reply`) occurs in it. -/
def validEmail (e : Str) : Bool :=
  strContains e (("@").data) && strContains e ((".").data) && 5 < e.length &&
    !(strContains e (("noreply").data) || strContains e (("donotreply").data) ||
      strContains e (("no-reply").data))

/-- The loop `for email in emails: email = email.strip().lower(); if ...:
valid_emails.append(email)`. -/
def validEmailsOf (it : List Str) : List Str :=
  it.filterMap (fun em =>
    let e := pyLower (pyStrip em)
    if validEmail e then some e else none)

/-- The f-string `f"({c[:3]}) {c[3:6]}-{c[6:]}"`. -/
def fmt10 (c : Str) : Str :=
  ('(' :: c.take 3) ++ (')' :: ' ' :: (c.drop 3).take 3) ++ ('-' :: c.drop 6)

/-- The body of the phone validation loop: clean to digits-and-plus;
accept cleaned lengths 10..15; format length 10 as `(AAA) PPP-NNNN`,
format length 11 with a leading `1` the same way after dropping that
digit; every other accepted length falls through both branches and is
appended nowhere. -/
def normalizePhone (phone : Str) : Option Str :=
  let clean := cleanPlus phone
  if 10 ≤ clean.length ∧ clean.length ≤ 15 then
    if clean.length = 10 then some (fmt10 clean)
    else if clean.length = 11 ∧ (("1").data).isPrefixOf clean then
      some (fmt10 (clean.drop 1))
    else none
  else none

/-- The loop `for phone in phones: ... valid_phones.append(formatted)`. -/
def validPhonesOf (it : List Str) : List Str := it.filterMap normalizePhone

/-- `AdvancedContactExtractor.extract_contacts_from_text`, with the regex
match lists as inputs and the four set-iteration oracles explicit.  Both
returned lists are `list(set(...))[:3]`. -/
def extract_contacts_from_text (o : SetOrders) (emailMatches : List Str)
    (phoneTuples : List (Str × Str × Str)) (phoneStrs : List Str) : ContactBundle where
  emails := (o.se2 (dedupFirst (validEmailsOf (o.se (emailsSetOf emailMatches))))).take 3
  phones := (o.sp2 (dedupFirst (validPhonesOf (o.sp (phonesSetOf phoneTuples phoneStrs))))).take 3

/-! ## Link collectors (pagination engines)

Each collector's DOM scans are oracles: `scan k` is what the link query
returns on pass `k`.  The accumulating Python `set` is modelled in
first-discovery order; the final `list(all_links)[:max_results]` applies a
set-iteration oracle `σ` and truncates. -/

/-- The marker substring the collectors filter hrefs by. -/
def placeMarker : Str := ("/maps/place/").data

/-- The absolutization prefix of `get_business_links_advanced`. -/
def googlePrefix : Str := ("https://www.google.com").data

/-- `if link.startswith('/'): link = 'https://www.google.com' + link`. -/
def canonLink (link : Str) : Str :=
  if (("/").data).isPrefixOf link then googlePrefix ++ link else link

/-- The inner loop of `get_business_links_advanced` over one pass's hrefs:
canonicalize, insert if new, and count the newly inserted links. -/
def advStep : List Str → List Str → List Str × Nat
  | acc, [] => (acc, 0)
  | acc, l :: ls =>
    let c := canonLink l
    if c ∈ acc then advStep acc ls
    else
      let r := advStep (acc ++ [c]) ls
      (r.1, r.2 + 1)

/-- The scroll loop of `main.py`'s `get_business_links_advanced`.
`scan k` is the pass-`k` result of the XPath query
`//a[contains(@href, "/maps/place/")]/@href`; `endFlag k` tells whether
the pass-`k` page source shows an end-of-results indicator.  The loop
state is `(scroll_attempts, no_new_content_count, all_links)`; the fuel
argument equals `maxScrolls - attempts` at entry, so it never runs out
before the `attempts < maxScrolls` guard fails. -/
def advLoop (scan : Nat → List Str) (endFlag : Nat → Bool)
    (maxResults maxScrolls : Nat) :
    Nat → Nat → List Str → Nat → List Str
  | _, _, acc, 0 => acc
  | attempts, noNew, acc, fuel + 1 =>
    if attempts < maxScrolls ∧ acc.length < maxResults then
      let r := advStep acc (scan attempts)
      if r.2 = 0 then
        if 3 ≤ noNew + 1 then r.1
        else if endFlag attempts then r.1
        else advLoop scan endFlag maxResults maxScrolls (attempts + 1) (noNew + 1) r.1 fuel
      else if endFlag attempts then r.1
      else advLoop scan endFlag maxResults maxScrolls (attempts + 1) 0 r.1 fuel
    else acc

/-- `AdvancedContactExtractor.get_business_links_advanced`.  `fails` covers
the outer `except` (any driver error returns `[]`), `panelFound` the
`if not scrollable_div: return []` check;
`max_scrolls = min(50, max_results // 10)`. -/
def get_business_links_advanced (σ : List Str → List Str)
    (panelFound fails : Bool) (scan : Nat → List Str) (endFlag : Nat → Bool)
    (maxResults : Nat) : List Str :=
  if fails then []
  else if !panelFound then []
  else
    let maxScrolls := min 50 (maxResults / 10)
    (σ (advLoop scan endFlag maxResults maxScrolls 0 0 [] maxScrolls)).take maxResults

/-- The inner loop of `GoogleMapsBusinessScraper.get_business_links` over
one pass's anchor elements: `href = element.get_attribute('href')` may be
`None`; keep it only when `href and '/maps/place/' in href` and it is not
already collected. -/
def gmsStep : List Str → List (Option Str) → List Str × Nat
  | acc, [] => (acc, 0)
  | acc, none :: hs => gmsStep acc hs
  | acc, some h :: hs =>
    if !h.isEmpty ∧ strContains h placeMarker = true ∧ h ∉ acc then
      let r := gmsStep (acc ++ [h]) hs
      (r.1, r.2 + 1)
    else gmsStep acc hs

/-- The scroll loop of `google_maps_scraper.py`'s `get_business_links`:
`max_scrolls = 8`, an early break once the target is reached, and the
3-strike stagnation break. -/
def gmsLoop (scan : Nat → List (Option Str)) (maxResults : Nat) :
    Nat → Nat → List Str → Nat → List Str
  | _, _, acc, 0 => acc
  | attempts, noNew, acc, fuel + 1 =>
    if attempts < 8 ∧ acc.length < maxResults then
      let r := gmsStep acc (scan attempts)
      if maxResults ≤ r.1.length then r.1
      else if r.2 = 0 then
        if 3 ≤ noNew + 1 then r.1
        else gmsLoop scan maxResults (attempts + 1) (noNew + 1) r.1 fuel
      else gmsLoop scan maxResults (attempts + 1) 0 r.1 fuel
    else acc

/-- `GoogleMapsBusinessScraper.get_business_links`; `fails` covers the
outer `except` path returning `[]`. -/
def get_business_links (σ : List Str → List Str) (fails : Bool)
    (scan : Nat → List (Option Str)) (maxResults : Nat) : List Str :=
  if fails then []
  else (σ (gmsLoop scan maxResults 0 0 [] 8)).take maxResults

/-- The scroll loop of `enhanced_google_maps_scraper.py`'s
`get_business_links`: `max_scrolls = 200`, `max_patience = 25`; per-pass
insertion uses the same `href and '/maps/place/' in href and href not in
all_links` filter as the basic collector; at patience exhaustion the
`_railway_final_attempt` links (parameter `finalLinks`) are merged with
`all_links.update(...)` and the loop breaks.  The intermediate recovery
strategies (alternative scroll, refresh, zoom, reload) only act on the
page, never on `all_links`, so they are absorbed into the `scan` oracle. -/
def enhLoop (scan : Nat → List (Option Str)) (finalLinks : List Str)
    (maxResults : Nat) : Nat → Nat → List Str → Nat → List Str
  | _, _, acc, 0 => acc
  | attempts, noNew, acc, fuel + 1 =>
    if attempts < 200 ∧ acc.length < maxResults then
      let r := gmsStep acc (scan attempts)
      if maxResults ≤ r.1.length then r.1
      else if r.2 = 0 then
        if 25 ≤ noNew + 1 then finalLinks.foldl insertNew r.1
        else enhLoop scan finalLinks maxResults (attempts + 1) (noNew + 1) r.1 fuel
      else enhLoop scan finalLinks maxResults (attempts + 1) 0 r.1 fuel
    else acc

/-- `EnhancedGoogleMapsBusinessScraper.get_business_links`. -/
def enh_get_business_links (σ : List Str → List Str) (fails : Bool)
    (scan : Nat → List (Option Str)) (finalLinks : List Str)
    (maxResults : Nat) : List Str :=
  if fails then []
  else (σ (enhLoop scan finalLinks maxResults 0 0 [] 200)).take maxResults

/-! ## Detail extraction and website visit (`main.py`) -/

/-- The slice of the `data` dict of
`AdvancedContactExtractor.extract_business_contacts` that the claims
refer to (the remaining fields — address, rating, review count, category,
mobile — are independent per-field fallbacks that none of the claims
mention).  `extraEmails`/`extraPhones` carry the payload serialized into
`data['additional_contacts']`. -/
structure BizData where
  name : Str
  website : Option Str
  email : Option Str
  secondary_email : Option Str
  website_visited : Bool
  extraEmails : List Str
  extraPhones : List Str
  deriving DecidableEq

/-- Python truthiness of an `Option Str` field (`None` and `''` are
falsy). -/
def truthyOpt : Option Str → Bool
  | none => false
  | some s => !s.isEmpty

/-- Python truthiness of the dict `{'emails': ..., 'phones': ...}`: a dict
is truthy iff it has at least one key, and this dict always has two, so
the test `if website_contacts:` is always true — even for the failure
sentinel `{'emails': [], 'phones': []}`. -/
def dictTruthy (_ : ContactBundle) : Bool := true

/-- `AdvancedContactExtractor.extract_from_website`.  `fail` is the outer
`except` path (navigation error): it returns the sentinel
`{'emails': [], 'phones': []}` and never raises.  On success the website
page is parsed; if a contact link is found and clicking it succeeds, the
contact page's contacts are appended (`contactFail` covers the inner
`except: pass`). -/
def extract_from_website (ow oc : SetOrders) (fail : Bool)
    (wEm : List Str) (wTu : List (Str × Str × Str)) (wSt : List Str)
    (hasContactLink contactFail : Bool)
    (cEm : List Str) (cTu : List (Str × Str × Str)) (cSt : List Str) :
    ContactBundle :=
  if fail then ⟨[], []⟩
  else
    let wc := extract_contacts_from_text ow wEm wTu wSt
    if hasContactLink then
      if contactFail then wc
      else
        let cc := extract_contacts_from_text oc cEm cTu cSt
        ⟨wc.emails ++ cc.emails, wc.phones ++ cc.phones⟩
    else wc

/-- `AdvancedContactExtractor.extract_business_contacts`, restricted to
the claim-relevant fields.  `nameText` is the `h1` locator's text if any
strategy succeeded (`None` ⇒ the `"Unknown Business"` placeholder);
`websiteHref` the resolved website.  The page source's regex matches feed
the contact parser; primary/secondary emails are `emails[0]`/`emails[1]`.
If websites are visited and one resolved, `extract_from_website` runs and
— because its result dict is always truthy — the merge branch always
executes: `unique_emails = list(dict.fromkeys(all_emails))[:3]` and
`website_visited = True`. -/
def extract_business_contacts (o ow oc : SetOrders)
    (nameText websiteHref : Option Str) (visit_websites : Bool)
    (pageEm : List Str) (pageTu : List (Str × Str × Str)) (pageSt : List Str)
    (webFail : Bool)
    (wEm : List Str) (wTu : List (Str × Str × Str)) (wSt : List Str)
    (hasContactLink contactFail : Bool)
    (cEm : List Str) (cTu : List (Str × Str × Str)) (cSt : List Str) :
    BizData :=
  let page := extract_contacts_from_text o pageEm pageTu pageSt
  let name := match nameText with
    | some t => pyStrip t
    | none => ("Unknown Business").data
  let email := page.emails.head?
  let secondary := page.emails[1]?
  if visit_websites ∧ truthyOpt websiteHref = true then
    let wc := extract_from_website ow oc webFail wEm wTu wSt hasContactLink contactFail cEm cTu cSt
    if dictTruthy wc then
      let ue := (dedupFirst (page.emails ++ wc.emails)).take 3
      let up := (dedupFirst (page.phones ++ wc.phones)).take 3
      { name := name, website := websiteHref, email := ue.head?,
        secondary_email := ue[1]?, website_visited := true,
        extraEmails := ue.drop 2, extraPhones := up.drop 2 }
    else
      { name := name, website := websiteHref, email := email,
        secondary_email := secondary, website_visited := false,
        extraEmails := [], extraPhones := [] }
  else
    { name := name, website := websiteHref, email := email,
      secondary_email := secondary, website_visited := false,
      extraEmails := [], extraPhones := [] }

/-! ## Run-extraction controllers -/

/-- The record slice that `GoogleMapsBusinessScraper.run_extraction`
inspects per item. -/
structure GBusiness where
  name : Str
  email : Option Str
  mobile : Option Str
  deriving DecidableEq

/-- Whether an item counts as a failed extraction in
`GoogleMapsBusinessScraper.run_extraction`: `extract_business_data`
returned `None` (or raised, which the per-item `except` also counts as a
failure), or the resolved name is the `"Unknown Business"` placeholder. -/
def failedItem : Option GBusiness → Bool
  | none => true
  | some d => d.name == ("Unknown Business").data

/-- Whether `business_data.get('email') or business_data.get('mobile')` is
truthy. -/
def hasContact (d : GBusiness) : Bool :=
  truthyOpt d.email || truthyOpt d.mobile

/-- The per-item loop of `GoogleMapsBusinessScraper.run_extraction`
(lines 547..575): a truthy record whose name is not `"Unknown Business"`
is appended to `results` and bumps `successful_extractions` (and
`contacts_found` when it has an email or mobile); everything else bumps
`failed_extractions` and is dropped.  Returns
`(results, successful, failed, contacts_found)`. -/
def gms_item_loop : List (Option GBusiness) → List GBusiness × Nat × Nat × Nat
  | [] => ([], 0, 0, 0)
  | item :: rest =>
    let r := gms_item_loop rest
    match item with
    | some d =>
      if d.name ≠ ("Unknown Business").data then
        (d :: r.1, r.2.1 + 1, r.2.2.1, r.2.2.2 + (if hasContact d then 1 else 0))
      else (r.1, r.2.1, r.2.2.1 + 1, r.2.2.2)
    | none => (r.1, r.2.1, r.2.2.1 + 1, r.2.2.2)

/-- `GoogleMapsBusinessScraper.run_extraction`: a failed search returns
`[]`; an empty link collection returns `[]`; otherwise the per-item loop
runs over the collected links (`item k` is the outcome for link `k`) and
the accumulated `results` list is returned. -/
def gms_run_extraction (searchOk : Bool) (links : List Str)
    (item : Nat → Option GBusiness) : List GBusiness :=
  if !searchOk then []
  else if links.isEmpty then []
  else (gms_item_loop ((List.range links.length).map item)).1

/-- The value `AdvancedContactExtractor.run_extraction` hands back:
`.ok records` for the list `data_list_1`, `.failure` for Python `False`. -/
inductive AdvResult where
  | ok (records : List (Option BizData))
  | failure
  deriving DecidableEq

/-- The per-item loop of `AdvancedContactExtractor.run_extraction`
(lines 547..561): `data_list_1.append(business_data)` unconditionally —
`None` results and `"Unknown Business"` records are appended too, and no
success/failure counters exist.  An exception from an item propagates. -/
def adv_loop (item : Nat → Except Unit (Option BizData)) :
    Nat → Except Unit (List (Option BizData))
  | 0 => .ok []
  | n + 1 => do
    let pre ← adv_loop item n
    let d ← item n
    .ok (pre ++ [d])

/-- The `try` body of `AdvancedContactExtractor.run_extraction`: a failed
search returns `False`; an empty link collection returns `False`
(`if not business_links: return False`); otherwise the per-item loop runs
and `data_list_1` is returned. -/
def adv_run_extraction_body (searchOk : Bool) (links : List Str)
    (item : Nat → Except Unit (Option BizData)) : Except Unit AdvResult :=
  if !searchOk then .ok .failure
  else if links.isEmpty then .ok .failure
  else do
    let l ← adv_loop item links.length
    .ok (.ok l)

/-- `AdvancedContactExtractor.cleanup`: `driver.quit()` runs exactly when
the instance has a `driver` attribute (always true once `__init__`
succeeded); the surrounding `try/except` swallows any error it raises
after the call. Returns whether `driver.quit()` was invoked. -/
def cleanup (hasDriver : Bool) : Bool := hasDriver

/-- `AdvancedContactExtractor.run_extraction` with its `try/except/finally`
frame: a body exception is caught (`return False`), and the `finally`
clause runs `self.cleanup()` on every exit path.  Returns the result
together with whether the cleanup step released the driver. -/
def adv_run_extraction (searchOk : Bool) (links : List Str)
    (item : Nat → Except Unit (Option BizData)) : AdvResult × Bool :=
  match adv_run_extraction_body searchOk links item with
  | .ok r => (r, cleanup true)
  | .error _ => (.failure, cleanup true)

/-! ## Helper lemmas -/

lemma mem_insertNew {l : List Str} {a x : Str} (hx : x ∈ insertNew l a) :
    x ∈ l ∨ x = a := by
  unfold insertNew at hx
  split at hx
  · exact .inl hx
  · rcases List.mem_append.mp hx with h | h
    · exact .inl h
    · exact .inr (by simpa using h)

lemma nodup_insertNew {l : List Str} {a : Str} (h : l.Nodup) :
    (insertNew l a).Nodup := by
  unfold insertNew
  split
  · exact h
  · next hn => simp [List.nodup_append, h, hn]

lemma nodup_append_singleton {l : List Str} {x : Str} (h : l.Nodup)
    (hx : x ∉ l) : (l ++ [x]).Nodup := by
  simp [List.nodup_append, h, hx]

lemma foldl_mem_invariant {α : Type} (Q : α → Str → Prop)
    (f : List Str → α → List Str)
    (hf : ∀ acc a x, x ∈ f acc a → x ∈ acc ∨ Q a x) :
    ∀ (l : List α) (init : List Str) (x : Str),
      x ∈ l.foldl f init → x ∈ init ∨ ∃ a ∈ l, Q a x := by
  intro l
  induction l with
  | nil => intro init x hx; exact .inl (by simpa using hx)
  | cons a t ih =>
    intro init x hx
    rcases ih (f init a) x (by simpa using hx) with h | ⟨b, hb, hq⟩
    · rcases hf init a x h with h' | hq
      · exact .inl h'
      · exact .inr ⟨a, by simp, hq⟩
    · exact .inr ⟨b, by simp [hb], hq⟩

lemma foldl_nodup_invariant {α : Type} (f : List Str → α → List Str)
    (hf : ∀ acc a, acc.Nodup → (f acc a).Nodup) :
    ∀ (l : List α) (init : List Str), init.Nodup → (l.foldl f init).Nodup := by
  intro l
  induction l with
  | nil => intro init h; simpa using h
  | cons a t ih => intro init h; simpa using ih (f init a) (hf init a h)

lemma mem_dedupFirst {l : List Str} {x : Str} (hx : x ∈ dedupFirst l) :
    x ∈ l := by
  rcases foldl_mem_invariant (fun a y => y = a) insertNew
      (fun acc a x h => mem_insertNew h) l [] x hx with h | ⟨a, ha, he⟩
  · simp at h
  · exact he ▸ ha

lemma nodup_dedupFirst (l : List Str) : (dedupFirst l).Nodup :=
  foldl_nodup_invariant insertNew (fun _ a h => nodup_insertNew h) l [] (by simp)

lemma mem_emailsSetOf {ms : List Str} {x : Str} (hx : x ∈ emailsSetOf ms) :
    x ∈ ms := mem_dedupFirst hx

lemma nodup_emailsSetOf (ms : List Str) : (emailsSetOf ms).Nodup :=
  nodup_dedupFirst ms

lemma mem_phonesSetOf {tuples : List (Str × Str × Str)} {strs : List Str}
    {x : Str} (hx : x ∈ phonesSetOf tuples strs) :
    (∃ t ∈ tuples, x = t.1 ++ t.2.1 ++ t.2.2 ∧ 10 ≤ x.length) ∨
      (∃ m ∈ strs, x = m ∧ 10 ≤ (digitsOnly x).length) := by
  unfold phonesSetOf at hx
  rcases foldl_mem_invariant (fun m y => y = m ∧ 10 ≤ (digitsOnly y).length)
      (fun acc m => if 10 ≤ (digitsOnly m).length then insertNew acc m else acc)
      (by
        intro acc a x h
        dsimp only at h
        split at h
        · rcases mem_insertNew h with h' | h'
          · exact .inl h'
          · subst h'; right; exact ⟨rfl, by assumption⟩
        · exact .inl h)
      strs _ x hx with h | ⟨m, hm, he⟩
  · left
    rcases foldl_mem_invariant
        (fun t y => y = t.1 ++ t.2.1 ++ t.2.2 ∧ 10 ≤ y.length)
        (fun acc t =>
          if 10 ≤ (t.1 ++ t.2.1 ++ t.2.2).length
          then insertNew acc (t.1 ++ t.2.1 ++ t.2.2) else acc)
        (by
          intro acc a x h
          dsimp only at h
          split at h
          · rcases mem_insertNew h with h' | h'
            · exact .inl h'
            · subst h'; right; exact ⟨rfl, by assumption⟩
          · exact .inl h)
        tuples [] x h with h' | h'
    · simp at h'
    · exact h'
  · exact .inr ⟨m, hm, he⟩

lemma nodup_phonesSetOf (tuples : List (Str × Str × Str)) (strs : List Str) :
    (phonesSetOf tuples strs).Nodup := by
  unfold phonesSetOf
  refine foldl_nodup_invariant _ (fun acc a h => ?_) strs _
    (foldl_nodup_invariant _ (fun acc a h => ?_) tuples [] (by simp)) <;>
    (dsimp only; split; exacts [nodup_insertNew h, h])

lemma strContains_append_left {b pat : Str} (a : Str)
    (h : strContains b pat = true) : strContains (a ++ b) pat = true := by
  induction a with
  | nil => simpa using h
  | cons c t ih =>
    rw [List.cons_append, strContains]
    simp [ih]

lemma isDigit_ne_plus {c : Char} (h : c.isDigit = true) : ¬c = '+' := by
  intro he
  subst he
  simp at h

lemma digitsOnly_cleanPlus (q : Str) : digitsOnly (cleanPlus q) = digitsOnly q := by
  have hpred : ∀ c : Char, (c.isDigit && (c.isDigit || c == '+')) = c.isDigit := by
    intro c
    cases h : c.isDigit <;> simp [h]
  simp only [digitsOnly, cleanPlus, List.filter_filter]
  exact List.filter_congr (fun c _ => hpred c)

lemma mem_cleanPlus {q : Str} {c : Char} (h : c ∈ cleanPlus q) :
    c ∈ q ∧ (c.isDigit = true ∨ c = '+') := by
  have := List.mem_filter.mp h
  refine ⟨this.1, ?_⟩
  rcases Bool.or_eq_true_iff.mp this.2 with h' | h'
  · exact .inl h'
  · exact .inr (by simpa using h')

lemma digitsOnly_eq_self {s : Str} (h : ∀ c ∈ s, c.isDigit = true) :
    digitsOnly s = s := List.filter_eq_self.mpr h

lemma digitsOnly_fmt10 {c : Str} (h : ∀ x ∈ c, x.isDigit = true) :
    digitsOnly (fmt10 c) = c := by
  have ht3 : digitsOnly (c.take 3) = c.take 3 :=
    digitsOnly_eq_self (fun x hx => h x (List.take_subset _ _ hx))
  have hm3 : digitsOnly ((c.drop 3).take 3) = (c.drop 3).take 3 :=
    digitsOnly_eq_self
      (fun x hx => h x (List.drop_subset _ _ (List.take_subset _ _ hx)))
  have hd6 : digitsOnly (c.drop 6) = c.drop 6 :=
    digitsOnly_eq_self (fun x hx => h x (List.drop_subset _ _ hx))
  have hsplit : c.take 3 ++ (c.drop 3).take 3 = c.take 6 := by
    simpa using (List.take_add c 3 3).symm
  have hp1 : ('(').isDigit = false := by decide
  have hp2 : (')').isDigit = false := by decide
  have hp3 : (' ').isDigit = false := by decide
  have hp4 : ('-').isDigit = false := by decide
  simp only [fmt10, digitsOnly] at *
  simp only [List.filter_append, List.filter_cons, hp1, hp2, hp3, hp4,
    Bool.false_eq_true, if_false, ht3, hm3, hd6]
  rw [hsplit, List.take_append_drop]

lemma cleanPlus_cons_plus (qt : Str) : cleanPlus ('+' :: qt) = '+' :: cleanPlus qt := by
  simp [cleanPlus]

lemma one_not_prefix_plus (X : Str) :
    ¬(("1").data).isPrefixOf ('+' :: X) = true := by
  intro h
  have : ('1' :: ([] : Str)) <+: ('+' :: X) := by
    have h1 : (("1").data) = ['1'] := rfl
    rw [h1] at h
    exact List.isPrefixOf_iff_prefix.mp h
  rcases List.cons_prefix_cons.mp this with ⟨h1, -⟩
  exact absurd h1 (by decide)

lemma normalizePhone_digits {q p : Str}
    (h10 : 10 ≤ (digitsOnly q).length)
    (hplus : ∀ c ∈ q.drop 1, ¬c = '+')
    (hp : normalizePhone q = some p) : (digitsOnly p).length = 10 := by
  simp only [normalizePhone] at hp
  have hdq : digitsOnly (cleanPlus q) = digitsOnly q := digitsOnly_cleanPlus q
  have hle : (digitsOnly (cleanPlus q)).length ≤ (cleanPlus q).length :=
    List.length_filter_le _ _
  split at hp
  · next hrange =>
    split at hp
    · next hl10 =>
      -- cleaned length exactly 10: at least 10 digits in 10 characters, so all digits
      have hge : 10 ≤ (digitsOnly (cleanPlus q)).length := by rw [hdq]; exact h10
      have hlen : (digitsOnly (cleanPlus q)).length = (cleanPlus q).length := by
        omega
      have heq : digitsOnly (cleanPlus q) = cleanPlus q :=
        (List.filter_sublist _).eq_of_length hlen
      have hall : ∀ x ∈ cleanPlus q, x.isDigit = true :=
        List.filter_eq_self.mp heq
      have hpe : p = fmt10 (cleanPlus q) := by
        injection hp with h
        exact h.symm
      rw [hpe, digitsOnly_fmt10 hall, hl10]
    · split at hp
      · next hc =>
        -- cleaned length 11 starting with '1': the tail is all digits
        obtain ⟨hl11, hpre⟩ := hc
        have hnp : ('+' : Char) ∉ (cleanPlus q).drop 1 := by
          intro hmem
          have hq : ('+' : Char) ∈ q :=
            (mem_cleanPlus (List.drop_subset _ _ hmem)).1
          cases q with
          | nil => simp at hq
          | cons q0 qt =>
            have h0 : q0 = '+' := by
              rcases List.mem_cons.mp hq with h | h
              · exact h.symm
              · exact absurd rfl (hplus '+' (by simpa using h))
            rw [h0, cleanPlus_cons_plus] at hpre
            exact one_not_prefix_plus _ hpre
        have hall : ∀ x ∈ (cleanPlus q).drop 1, x.isDigit = true := by
          intro x hx
          rcases (mem_cleanPlus (List.drop_subset _ _ hx)).2 with h | h
          · exact h
          · exact absurd (h ▸ hx) hnp
        have hpe : p = fmt10 ((cleanPlus q).drop 1) := by
          injection hp with h
          exact h.symm
        rw [hpe, digitsOnly_fmt10 hall]
        simp [hl11]
      · exact absurd hp (by simp)
  · exact absurd hp (by simp)

lemma setOrder_id : SetOrder id := fun l => List.Perm.refl l

lemma setOrder_reverse : SetOrder List.reverse := fun l => l.reverse_perm

lemma goodOrders_id : GoodOrders idOrders :=
  ⟨setOrder_id, setOrder_id, setOrder_id, setOrder_id⟩

lemma canonLink_contains {l : Str}
    (h : strContains l placeMarker = true) :
    strContains (canonLink l) placeMarker = true := by
  unfold canonLink
  split
  · exact strContains_append_left googlePrefix h
  · exact h

lemma canonLink_not_slash (l : Str) :
    (("/").data).isPrefixOf (canonLink l) = false := by
  unfold canonLink
  split
  · cases hb : (("/").data).isPrefixOf (googlePrefix ++ l) with
    | false => rfl
    | true =>
      exfalso
      have hg : googlePrefix ++ l = 'h' :: ((("ttps://www.google.com").data) ++ l) := rfl
      have h1 : (("/").data) = ['/'] := rfl
      rw [hg, h1] at hb
      have hpre : ('/' :: ([] : Str)) <+: ('h' :: ((("ttps://www.google.com").data) ++ l)) :=
        List.isPrefixOf_iff_prefix.mp hb
      rcases List.cons_prefix_cons.mp hpre with ⟨h2, -⟩
      exact absurd h2 (by decide)
  · next hn =>
    cases hb : (("/").data).isPrefixOf l with
    | false => rfl
    | true => exact absurd hb hn

lemma advStep_fst_mem :
    ∀ (ls acc : List Str) (x : Str), x ∈ (advStep acc ls).1 →
      x ∈ acc ∨ ∃ l ∈ ls, x = canonLink l := by
  intro ls
  induction ls with
  | nil => intro acc x hx; exact .inl (by simpa [advStep] using hx)
  | cons l t ih =>
    intro acc x hx
    simp only [advStep] at hx
    by_cases hc : canonLink l ∈ acc
    · rw [if_pos hc] at hx
      rcases ih acc x hx with h | ⟨a, ha, he⟩
      · exact .inl h
      · exact .inr ⟨a, by simp [ha], he⟩
    · rw [if_neg hc] at hx
      rcases ih (acc ++ [canonLink l]) x hx with h | ⟨a, ha, he⟩
      · rcases List.mem_append.mp h with h | h
        · exact .inl h
        · exact .inr ⟨l, by simp, by simpa using h⟩
      · exact .inr ⟨a, by simp [ha], he⟩

lemma advStep_nodup :
    ∀ (ls acc : List Str), acc.Nodup → (advStep acc ls).1.Nodup := by
  intro ls
  induction ls with
  | nil => intro acc h; simpa [advStep] using h
  | cons l t ih =>
    intro acc h
    simp only [advStep]
    by_cases hc : canonLink l ∈ acc
    · rw [if_pos hc]; exact ih acc h
    · rw [if_neg hc]; exact ih _ (nodup_append_singleton h hc)

lemma advLoop_mem (scan : Nat → List Str) (endFlag : Nat → Bool)
    (mR mS : Nat) :
    ∀ (fuel attempts noNew : Nat) (acc : List Str) (x : Str),
      x ∈ advLoop scan endFlag mR mS attempts noNew acc fuel →
      x ∈ acc ∨ ∃ k, ∃ l ∈ scan k, x = canonLink l := by
  intro fuel
  induction fuel with
  | zero => intro _ _ acc x hx; exact .inl (by simpa [advLoop] using hx)
  | succ f ih =>
    intro attempts noNew acc x hx
    simp only [advLoop] at hx
    have hstep : x ∈ (advStep acc (scan attempts)).1 →
        x ∈ acc ∨ ∃ k, ∃ l ∈ scan k, x = canonLink l := by
      intro h
      rcases advStep_fst_mem (scan attempts) acc x h with h' | ⟨l, hl, he⟩
      · exact .inl h'
      · exact .inr ⟨attempts, l, hl, he⟩
    have hrec : ∀ a b, x ∈ advLoop scan endFlag mR mS a b (advStep acc (scan attempts)).1 f →
        x ∈ acc ∨ ∃ k, ∃ l ∈ scan k, x = canonLink l := by
      intro a b h
      rcases ih a b _ x h with h' | h'
      · exact hstep h'
      · exact .inr h'
    split at hx
    · split at hx
      · split at hx
        · exact hstep hx
        · split at hx
          · exact hstep hx
          · exact hrec _ _ hx
      · split at hx
        · exact hstep hx
        · exact hrec _ _ hx
    · exact .inl hx

lemma advLoop_nodup (scan : Nat → List Str) (endFlag : Nat → Bool)
    (mR mS : Nat) :
    ∀ (fuel attempts noNew : Nat) (acc : List Str), acc.Nodup →
      (advLoop scan endFlag mR mS attempts noNew acc fuel).Nodup := by
  intro fuel
  induction fuel with
  | zero => intro _ _ acc h; simpa [advLoop] using h
  | succ f ih =>
    intro attempts noNew acc h
    have hs : (advStep acc (scan attempts)).1.Nodup :=
      advStep_nodup (scan attempts) acc h
    simp only [advLoop]
    split
    · split
      · split
        · exact hs
        · split
          · exact hs
          · exact ih _ _ _ hs
      · split
        · exact hs
        · exact ih _ _ _ hs
    · exact h

lemma gmsStep_fst_mem :
    ∀ (hs : List (Option Str)) (acc : List Str) (x : Str),
      x ∈ (gmsStep acc hs).1 →
      x ∈ acc ∨ strContains x placeMarker = true := by
  intro hs
  induction hs with
  | nil => intro acc x hx; exact .inl (by simpa [gmsStep] using hx)
  | cons h t ih =>
    intro acc x hx
    match h with
    | none =>
      simp only [gmsStep] at hx
      exact ih acc x hx
    | some s =>
      simp only [gmsStep] at hx
      split at hx
      · next hcond =>
        rcases ih (acc ++ [s]) x hx with h' | h'
        · rcases List.mem_append.mp h' with h'' | h''
          · exact .inl h''
          · right
            have : x = s := by simpa using h''
            rw [this]
            exact hcond.2.1
        · exact .inr h'
      · exact ih acc x hx

lemma gmsStep_nodup :
    ∀ (hs : List (Option Str)) (acc : List Str), acc.Nodup →
      (gmsStep acc hs).1.Nodup := by
  intro hs
  induction hs with
  | nil => intro acc h; simpa [gmsStep] using h
  | cons h t ih =>
    intro acc hn
    match h with
    | none => simp only [gmsStep]; exact ih acc hn
    | some s =>
      simp only [gmsStep]
      split
      · next hcond => exact ih _ (nodup_append_singleton hn hcond.2.2)
      · exact ih acc hn

lemma gmsLoop_mem (scan : Nat → List (Option Str)) (mR : Nat) :
    ∀ (fuel attempts noNew : Nat) (acc : List Str) (x : Str),
      x ∈ gmsLoop scan mR attempts noNew acc fuel →
      x ∈ acc ∨ strContains x placeMarker = true := by
  intro fuel
  induction fuel with
  | zero => intro _ _ acc x hx; exact .inl (by simpa [gmsLoop] using hx)
  | succ f ih =>
    intro attempts noNew acc x hx
    simp only [gmsLoop] at hx
    have hstep : x ∈ (gmsStep acc (scan attempts)).1 →
        x ∈ acc ∨ strContains x placeMarker = true :=
      gmsStep_fst_mem (scan attempts) acc x
    have hrec : ∀ a b, x ∈ gmsLoop scan mR a b (gmsStep acc (scan attempts)).1 f →
        x ∈ acc ∨ strContains x placeMarker = true := by
      intro a b h
      rcases ih a b _ x h with h' | h'
      · exact hstep h'
      · exact .inr h'
    split at hx
    · split at hx
      · exact hstep hx
      · split at hx
        · split at hx
          · exact hstep hx
          · exact hrec _ _ hx
        · exact hrec _ _ hx
    · exact .inl hx

lemma gmsLoop_nodup (scan : Nat → List (Option Str)) (mR : Nat) :
    ∀ (fuel attempts noNew : Nat) (acc : List Str), acc.Nodup →
      (gmsLoop scan mR attempts noNew acc fuel).Nodup := by
  intro fuel
  induction fuel with
  | zero => intro _ _ acc h; simpa [gmsLoop] using h
  | succ f ih =>
    intro attempts noNew acc h
    have hs : (gmsStep acc (scan attempts)).1.Nodup :=
      gmsStep_nodup (scan attempts) acc h
    simp only [gmsLoop]
    split
    · split
      · exact hs
      · split
        · split
          · exact hs
          · exact ih _ _ _ hs
        · exact ih _ _ _ hs
    · exact h

lemma enhLoop_mem (scan : Nat → List (Option Str)) (finalLinks : List Str)
    (mR : Nat) (hfin : ∀ y ∈ finalLinks, strContains y placeMarker = true) :
    ∀ (fuel attempts noNew : Nat) (acc : List Str) (x : Str),
      x ∈ enhLoop scan finalLinks mR attempts noNew acc fuel →
      x ∈ acc ∨ strContains x placeMarker = true := by
  intro fuel
  induction fuel with
  | zero => intro _ _ acc x hx; exact .inl (by simpa [enhLoop] using hx)
  | succ f ih =>
    intro attempts noNew acc x hx
    simp only [enhLoop] at hx
    have hstep : x ∈ (gmsStep acc (scan attempts)).1 →
        x ∈ acc ∨ strContains x placeMarker = true :=
      gmsStep_fst_mem (scan attempts) acc x
    have hrec : ∀ a b, x ∈ enhLoop scan finalLinks mR a b (gmsStep acc (scan attempts)).1 f →
        x ∈ acc ∨ strContains x placeMarker = true := by
      intro a b h
      rcases ih a b _ x h with h' | h'
      · exact hstep h'
      · exact .inr h'
    split at hx
    · split at hx
      · exact hstep hx
      · split at hx
        · split at hx
          · -- patience exhausted: the final-attempt links are merged in
            rcases foldl_mem_invariant (fun a y => y = a) insertNew
                (fun acc a x h => mem_insertNew h) finalLinks _ x hx with h | ⟨a, ha, he⟩
            · exact hstep h
            · exact .inr (he ▸ hfin a ha)
          · exact hrec _ _ hx
        · exact hrec _ _ hx
    · exact .inl hx

/-! ## Claim theorems -/

/-- C5: for every input text, `extract_contacts_from_text` returns at most
3 emails and at most 3 phones, the emails are pairwise distinct, the
phones are pairwise distinct, and every returned phone's digit-only
stripped form has length between 10 and 15 inclusive.  The theorem holds
for every set-iteration order and for all regex match lists satisfying the
two facts the phone patterns guarantee about their matches: the three
capture groups of the first pattern consist of digits, and a string match
of the other patterns can contain `+` only as its first character (the
later patterns put `\+?` only at the start).  Internally the stripped
length is always exactly 10, which the proof establishes. -/
theorem c5_contact_bundle_bounds (o : SetOrders) (ho : GoodOrders o)
    (emailMatches : List Str) (phoneTuples : List (Str × Str × Str))
    (phoneStrs : List Str)
    (htu : ∀ t ∈ phoneTuples, ∀ c ∈ t.1 ++ t.2.1 ++ t.2.2, c.isDigit = true)
    (hst : ∀ m ∈ phoneStrs, ∀ c ∈ m.drop 1, ¬c = '+') :
    (extract_contacts_from_text o emailMatches phoneTuples phoneStrs).emails.length ≤ 3 ∧
    (extract_contacts_from_text o emailMatches phoneTuples phoneStrs).phones.length ≤ 3 ∧
    (extract_contacts_from_text o emailMatches phoneTuples phoneStrs).emails.Nodup ∧
    (extract_contacts_from_text o emailMatches phoneTuples phoneStrs).phones.Nodup ∧
    ∀ p ∈ (extract_contacts_from_text o emailMatches phoneTuples phoneStrs).phones,
      10 ≤ (digitsOnly p).length ∧ (digitsOnly p).length ≤ 15 := by
  obtain ⟨hse, hse2, hsp, hsp2⟩ := ho
  refine ⟨List.length_take_le _ _, List.length_take_le _ _, ?_, ?_, ?_⟩
  · exact List.Nodup.sublist (List.take_sublist _ _)
      (((hse2 _).nodup_iff).mpr (nodup_dedupFirst _))
  · exact List.Nodup.sublist (List.take_sublist _ _)
      (((hsp2 _).nodup_iff).mpr (nodup_dedupFirst _))
  · intro p hp
    have hp1 : p ∈ validPhonesOf (o.sp (phonesSetOf phoneTuples phoneStrs)) :=
      mem_dedupFirst (((hsp2 _).mem_iff).mp (List.take_subset _ _ hp))
    obtain ⟨q, hq, hnp⟩ := List.mem_filterMap.mp hp1
    have hqS : q ∈ phonesSetOf phoneTuples phoneStrs := ((hsp _).mem_iff).mp hq
    have hlen : (digitsOnly p).length = 10 := by
      rcases mem_phonesSetOf hqS with ⟨t, ht, he, hl⟩ | ⟨m, hm, he, hl⟩
      · have hdig : ∀ c ∈ q, c.isDigit = true := fun c hc => htu t ht c (he ▸ hc)
        refine normalizePhone_digits ?_ ?_ hnp
        · rw [digitsOnly_eq_self hdig]
          exact he ▸ hl
        · exact fun c hc => isDigit_ne_plus (hdig c (List.drop_subset _ _ hc))
      · exact normalizePhone_digits hl (fun c hc => hst m hm c (he ▸ hc)) hnp
    omega

/-- C5 witness: the bundle bounds at a concrete run — identity iteration
order, one email candidate, one 3-group phone tuple and one separator
phone string. -/
theorem c5_witness :
    (extract_contacts_from_text idOrders [("john@shop.com").data]
        [((("555").data, ("123").data, ("4567").data))] [("555-123-4567").data]).emails.length ≤ 3 ∧
    (extract_contacts_from_text idOrders [("john@shop.com").data]
        [((("555").data, ("123").data, ("4567").data))] [("555-123-4567").data]).phones.length ≤ 3 ∧
    (extract_contacts_from_text idOrders [("john@shop.com").data]
        [((("555").data, ("123").data, ("4567").data))] [("555-123-4567").data]).emails.Nodup ∧
    (extract_contacts_from_text idOrders [("john@shop.com").data]
        [((("555").data, ("123").data, ("4567").data))] [("555-123-4567").data]).phones.Nodup ∧
    ∀ p ∈ (extract_contacts_from_text idOrders [("john@shop.com").data]
        [((("555").data, ("123").data, ("4567").data))] [("555-123-4567").data]).phones,
      10 ≤ (digitsOnly p).length ∧ (digitsOnly p).length ≤ 15 :=
  c5_contact_bundle_bounds idOrders goodOrders_id _ _ _
    (by decide) (by decide)

/-- C6 counterexample: the claim says every accepted cleaned length other
than 10 and 11-with-leading-1 is kept in the output as its cleaned digit
string.  The `tel:`-pattern match `+15551234567` cleans to a 12-character
candidate (accepted by the 10..15 gate, and its 11 digits pass the
collection gate), yet the parser returns no phone at all: the validation
loop has no branch for it. -/
theorem c6_counterexample :
    10 ≤ (cleanPlus (("+15551234567").data)).length ∧
    (cleanPlus (("+15551234567").data)).length ≤ 15 ∧
    (cleanPlus (("+15551234567").data)).length ≠ 10 ∧
    10 ≤ (digitsOnly (("+15551234567").data)).length ∧
    (extract_contacts_from_text idOrders [] [] [("+15551234567").data]).phones = [] := by
  decide

/-- C6 amended: phone normalization maps an exactly-10-character cleaned
candidate to `(AAA) PPP-NNNN` form, an 11-character cleaned candidate
beginning with `1` to the same form after dropping the leading character,
and every other accepted cleaned length between 10 and 15 is dropped
(nothing is appended for it), rather than kept as its cleaned digit
string. -/
theorem c6_amended (p : Str) :
    ((cleanPlus p).length = 10 → normalizePhone p = some (fmt10 (cleanPlus p))) ∧
    ((cleanPlus p).length = 11 → (("1").data).isPrefixOf (cleanPlus p) = true →
      normalizePhone p = some (fmt10 ((cleanPlus p).drop 1))) ∧
    (10 ≤ (cleanPlus p).length → (cleanPlus p).length ≤ 15 →
      (cleanPlus p).length ≠ 10 →
      ¬((cleanPlus p).length = 11 ∧ (("1").data).isPrefixOf (cleanPlus p) = true) →
      normalizePhone p = none) := by
  refine ⟨?_, ?_, ?_⟩
  · intro h10
    simp [normalizePhone, h10]
  · intro h11 hpre
    simp [normalizePhone, h11, hpre]
  · intro hge hle hne hnc
    simp only [normalizePhone]
    rw [if_pos ⟨hge, hle⟩, if_neg hne, if_neg hnc]

/-- C6 witness: the amended normalization at concrete candidates —
`5551234567` and `15551234567` both format to `(555) 123-4567`, and the
accepted-length candidate `+15551234567` is dropped. -/
theorem c6_witness :
    normalizePhone (("5551234567").data) = some (("(555) 123-4567").data) ∧
    normalizePhone (("15551234567").data) = some (("(555) 123-4567").data) ∧
    normalizePhone (("+15551234567").data) = none :=
  ⟨((c6_amended (("5551234567").data)).1 (by decide)).trans (by decide),
   ((c6_amended (("15551234567").data)).2.1 (by decide) (by decide)).trans (by decide),
   (c6_amended (("+15551234567").data)).2.2 (by decide) (by decide) (by decide) (by decide)⟩

/-- C7 counterexample: the claim says any input containing
`Sales@Example.COM ` yields `sales@example.com` among the returned emails.
A page containing three other valid addresses before it (all five facts
below computed under the identity set order, one possible hash order)
fills the 3-cap `list(set(valid_emails))[:3]`, and the address is
dropped. -/
theorem c7_counterexample :
    ("Sales@Example.COM").data ∈
      [("ann@shop.com").data, ("bob@shop.com").data, ("cat@shop.com").data,
        ("Sales@Example.COM").data] ∧
    ("sales@example.com").data ∉
      (extract_contacts_from_text idOrders
        [("ann@shop.com").data, ("bob@shop.com").data, ("cat@shop.com").data,
          ("Sales@Example.COM").data] [] []).emails := by
  decide

/-- C7 amended: every returned email is the lower-cased, trimmed form of
some matched candidate and passes the validation test (`@` and `.`
present, length above 5, no no-reply fragment); `noreply@example.com` is
never returned for any input; and `Sales@Example.COM ` is returned as
`sales@example.com` when it survives the 3-cap — in particular when it is
the only candidate. -/
theorem c7_amended (o : SetOrders) (ho : GoodOrders o)
    (emailMatches : List Str) (phoneTuples : List (Str × Str × Str))
    (phoneStrs : List Str) :
    (∀ e ∈ (extract_contacts_from_text o emailMatches phoneTuples phoneStrs).emails,
      validEmail e = true ∧ ∃ m ∈ emailMatches, e = pyLower (pyStrip m)) ∧
    ("noreply@example.com").data ∉
      (extract_contacts_from_text o emailMatches phoneTuples phoneStrs).emails ∧
    (extract_contacts_from_text idOrders [("Sales@Example.COM ").data] [] []).emails =
      [("sales@example.com").data] := by
  obtain ⟨hse, hse2, -, -⟩ := ho
  have hmain : ∀ e ∈ (extract_contacts_from_text o emailMatches phoneTuples phoneStrs).emails,
      validEmail e = true ∧ ∃ m ∈ emailMatches, e = pyLower (pyStrip m) := by
    intro e he
    have he1 : e ∈ validEmailsOf (o.se (emailsSetOf emailMatches)) :=
      mem_dedupFirst (((hse2 _).mem_iff).mp (List.take_subset _ _ he))
    obtain ⟨m, hm, hme⟩ := List.mem_filterMap.mp he1
    dsimp only at hme
    split at hme
    · next hv =>
      injection hme with hme
      subst hme
      exact ⟨hv, m, mem_emailsSetOf (((hse _).mem_iff).mp hm), rfl⟩
    · exact absurd hme (by simp)
  refine ⟨hmain, ?_, by decide⟩
  intro hmem
  have := (hmain _ hmem).1
  exact absurd this (by decide)

/-- C7 witness: the amended statement at a concrete run — a page whose
only candidates are a no-reply address and a mixed-case sales address
returns exactly the normalized sales address. -/
theorem c7_witness :
    ("noreply@example.com").data ∉
      (extract_contacts_from_text idOrders
        [("noreply@example.com").data, ("Sales@Example.COM").data] [] []).emails ∧
    (extract_contacts_from_text idOrders [("Sales@Example.COM ").data] [] []).emails =
      [("sales@example.com").data] :=
  ⟨(c7_amended idOrders goodOrders_id
      [("noreply@example.com").data, ("Sales@Example.COM").data] [] []).2.1,
   (c7_amended idOrders goodOrders_id [] [] []).2.2⟩

/-- The set-iteration order that reverses `list(set(valid_emails))` — one
possible hash order for a CPython run. -/
def revOrders : SetOrders := ⟨id, List.reverse, id, id⟩

/-- C8 counterexample: the claim says the returned email list is ordered
by first occurrence in the merged pattern scan.  The code pipes the values
through Python sets, whose iteration order is hash-dependent: under the
(legitimate) reversing iteration order, a scan that finds `ann@shop.com`
before `bob@shop.com` returns them in the opposite order, which differs
from the first-occurrence order `dedupFirst` of the surviving
candidates. -/
theorem c8_counterexample :
    SetOrder List.reverse ∧
    (extract_contacts_from_text revOrders
        [("ann@shop.com").data, ("bob@shop.com").data] [] []).emails =
      [("bob@shop.com").data, ("ann@shop.com").data] ∧
    dedupFirst (validEmailsOf (emailsSetOf
        [("ann@shop.com").data, ("bob@shop.com").data])) =
      [("ann@shop.com").data, ("bob@shop.com").data] ∧
    (extract_contacts_from_text revOrders
        [("ann@shop.com").data, ("bob@shop.com").data] [] []).emails ≠
      dedupFirst (validEmailsOf (emailsSetOf
        [("ann@shop.com").data, ("bob@shop.com").data])) :=
  ⟨setOrder_reverse, by decide, by decide, by decide⟩

/-- C8 amended: the record's primary and secondary email fields are the
first and second elements of the email list the parser returned (shown on
the no-website-visit path, where they are assigned directly from the page
bundle), and that list is duplicate-free; but its order is the
set-iteration order of the run, not first-occurrence scan order. -/
theorem c8_amended (o ow oc : SetOrders) (ho : GoodOrders o)
    (nameText websiteHref : Option Str)
    (pageEm : List Str) (pageTu : List (Str × Str × Str)) (pageSt : List Str)
    (webFail : Bool) (wEm : List Str) (wTu : List (Str × Str × Str)) (wSt : List Str)
    (hasContactLink contactFail : Bool)
    (cEm : List Str) (cTu : List (Str × Str × Str)) (cSt : List Str) :
    (extract_business_contacts o ow oc nameText websiteHref false pageEm pageTu pageSt
        webFail wEm wTu wSt hasContactLink contactFail cEm cTu cSt).email =
      (extract_contacts_from_text o pageEm pageTu pageSt).emails.head? ∧
    (extract_business_contacts o ow oc nameText websiteHref false pageEm pageTu pageSt
        webFail wEm wTu wSt hasContactLink contactFail cEm cTu cSt).secondary_email =
      (extract_contacts_from_text o pageEm pageTu pageSt).emails[1]? ∧
    (extract_contacts_from_text o pageEm pageTu pageSt).emails.Nodup := by
  refine ⟨?_, ?_, ?_⟩
  · simp [extract_business_contacts]
  · simp [extract_business_contacts]
  · exact List.Nodup.sublist (List.take_sublist _ _)
      (((ho.2.1 _).nodup_iff).mpr (nodup_dedupFirst _))

/-- C8 amended witness: the field assignment at a concrete run with two
candidates. -/
theorem c8_witness :
    (extract_business_contacts idOrders idOrders idOrders
        (some (("Pizza Place").data)) none false
        [("ann@shop.com").data, ("bob@shop.com").data] [] []
        false [] [] [] false false [] [] []).email =
      (extract_contacts_from_text idOrders
        [("ann@shop.com").data, ("bob@shop.com").data] [] []).emails.head? ∧
    (extract_business_contacts idOrders idOrders idOrders
        (some (("Pizza Place").data)) none false
        [("ann@shop.com").data, ("bob@shop.com").data] [] []
        false [] [] [] false false [] [] []).secondary_email =
      (extract_contacts_from_text idOrders
        [("ann@shop.com").data, ("bob@shop.com").data] [] []).emails[1]? ∧
    (extract_contacts_from_text idOrders
        [("ann@shop.com").data, ("bob@shop.com").data] [] []).emails.Nodup := by
  have h := c8_amended idOrders idOrders idOrders goodOrders_id
    (some (("Pizza Place").data)) none
    [("ann@shop.com").data, ("bob@shop.com").data] [] []
    false [] [] [] false false [] [] []
  exact h

/-- C9: the secondary-source visit model never raises (it is a total
function returning the sentinel bundle on failure), and on a failed visit
the previously resolved primary and secondary email fields keep their
values — but `website_visited` is set to `true` even though the visit
failed.  The failure sentinel `{'emails': [], 'phones': []}` is a
non-empty dict, so `if website_contacts:` always takes the true branch:
the code contradicts the documented only-on-success contract for the
flag. -/
theorem c9_website_flag_bug :
    extract_from_website idOrders idOrders true [] [] [] false false [] [] [] =
      ⟨[], []⟩ ∧
    (extract_business_contacts idOrders idOrders idOrders
        (some (("Pizza Place").data)) (some (("http://pizza.example").data)) true
        [("ann@shop.com").data] [] [] true [] [] [] false false [] [] []).website_visited =
      true ∧
    (extract_business_contacts idOrders idOrders idOrders
        (some (("Pizza Place").data)) (some (("http://pizza.example").data)) true
        [("ann@shop.com").data] [] [] true [] [] [] false false [] [] []).email =
      some (("ann@shop.com").data) ∧
    (extract_business_contacts idOrders idOrders idOrders
        (some (("Pizza Place").data)) (some (("http://pizza.example").data)) true
        [("ann@shop.com").data] [] [] true [] [] [] false false [] [] []).secondary_email =
      none := by
  decide

/-- C1 counterexample: the claim says the collection's iteration order
equals first-discovery order for every run.  `get_business_links_advanced`
stores links in a Python `set` and returns `list(all_links)[:max_results]`;
set iteration order is hash-dependent.  Under the (legitimate) reversing
iteration order, a run that discovers `/maps/place/a` before
`/maps/place/b` (the `advLoop` accumulator below, which is maintained in
first-discovery order) returns them reversed. -/
theorem c1_counterexample :
    SetOrder List.reverse ∧
    get_business_links_advanced List.reverse true false
        (fun _ => [("/maps/place/a").data, ("/maps/place/b").data]) (fun _ => true) 20 =
      [("https://www.google.com/maps/place/b").data,
        ("https://www.google.com/maps/place/a").data] ∧
    (advLoop (fun _ => [("/maps/place/a").data, ("/maps/place/b").data]) (fun _ => true)
        20 (min 50 (20 / 10)) 0 0 [] (min 50 (20 / 10))).take 20 =
      [("https://www.google.com/maps/place/a").data,
        ("https://www.google.com/maps/place/b").data] ∧
    get_business_links_advanced List.reverse true false
        (fun _ => [("/maps/place/a").data, ("/maps/place/b").data]) (fun _ => true) 20 ≠
      (advLoop (fun _ => [("/maps/place/a").data, ("/maps/place/b").data]) (fun _ => true)
        20 (min 50 (20 / 10)) 0 0 [] (min 50 (20 / 10))).take 20 :=
  ⟨setOrder_reverse, by decide, by decide, by decide⟩

/-- C1 amended: for every run of either pagination engine and every
target count `N > 0`, the returned collection has at most `N` elements
and no duplicates, and every returned element belongs to the set of
discovered references (the `advLoop` accumulator, which is first-discovery
ordered); but the returned iteration order is the set's hash order, not
first-discovery order. -/
theorem c1_amended (σ σ2 : List Str → List Str) (h : SetOrder σ)
    (h2 : SetOrder σ2) (panelFound fails fails2 : Bool)
    (scan : Nat → List Str) (endFlag : Nat → Bool)
    (scanB : Nat → List (Option Str)) (maxResults : Nat)
    (hN : 0 < maxResults) :
    (get_business_links_advanced σ panelFound fails scan endFlag maxResults).length ≤
      maxResults ∧
    (get_business_links_advanced σ panelFound fails scan endFlag maxResults).Nodup ∧
    (∀ x ∈ get_business_links_advanced σ panelFound fails scan endFlag maxResults,
      x ∈ advLoop scan endFlag maxResults (min 50 (maxResults / 10)) 0 0 []
        (min 50 (maxResults / 10))) ∧
    (get_business_links σ2 fails2 scanB maxResults).length ≤ maxResults ∧
    (get_business_links σ2 fails2 scanB maxResults).Nodup := by
  unfold get_business_links_advanced get_business_links
  refine ⟨?_, ?_, ?_, ?_, ?_⟩
  · split
    · simp
    · split
      · simp
      · exact List.length_take_le _ _
  · split
    · simp
    · split
      · simp
      · exact List.Nodup.sublist (List.take_sublist _ _)
          (((h _).nodup_iff).mpr
            (advLoop_nodup scan endFlag maxResults (min 50 (maxResults / 10)) _ _ _ []
              (by simp)))
  · intro x hx
    split at hx
    · simp at hx
    · split at hx
      · simp at hx
      · exact ((h _).mem_iff).mp (List.take_subset _ _ hx)
  · split
    · simp
    · exact List.length_take_le _ _
  · split
    · simp
    · exact List.Nodup.sublist (List.take_sublist _ _)
        (((h2 _).nodup_iff).mpr
          (gmsLoop_nodup scanB maxResults _ _ _ [] (by simp)))

/-- C1 witness: the amended bounds at a concrete run of both engines. -/
theorem c1_witness :
    (get_business_links_advanced id true false
        (fun _ => [("/maps/place/a").data, ("/maps/place/b").data]) (fun _ => true) 20).length ≤
      20 ∧
    (get_business_links_advanced id true false
        (fun _ => [("/maps/place/a").data, ("/maps/place/b").data]) (fun _ => true) 20).Nodup ∧
    (∀ x ∈ get_business_links_advanced id true false
        (fun _ => [("/maps/place/a").data, ("/maps/place/b").data]) (fun _ => true) 20,
      x ∈ advLoop (fun _ => [("/maps/place/a").data, ("/maps/place/b").data]) (fun _ => true)
        20 (min 50 (20 / 10)) 0 0 [] (min 50 (20 / 10))) ∧
    (get_business_links id false
        (fun _ => [some (("https://www.google.com/maps/place/a").data), none]) 20).length ≤ 20 ∧
    (get_business_links id false
        (fun _ => [some (("https://www.google.com/maps/place/a").data), none]) 20).Nodup :=
  c1_amended id id setOrder_id setOrder_id true false false _ _ _ 20 (by decide)

/-- C2 counterexample: the claim says a record whose name resolved to the
`"Unknown Business"` placeholder is dropped by `run_extraction` and bumps
the failure counter.  `AdvancedContactExtractor.run_extraction` has no
such logic (and no failure counter at all): it appends every
`extract_business_contacts` result to `data_list_1` unconditionally, so a
run over one link whose name could not be resolved returns the
Unknown-Business record. -/
theorem c2_counterexample :
    (extract_business_contacts idOrders idOrders idOrders none none false
        [] [] [] false [] [] [] false false [] [] []).name =
      ("Unknown Business").data ∧
    (adv_run_extraction true [("https://www.google.com/maps/place/x").data]
        (fun _ => .ok (some (extract_business_contacts idOrders idOrders idOrders
          none none false [] [] [] false [] [] [] false false [] [] [])))).1 =
      AdvResult.ok [some (extract_business_contacts idOrders idOrders idOrders
        none none false [] [] [] false [] [] [] false false [] [] [])] := by
  decide

/-- C2 amended: in `GoogleMapsBusinessScraper.run_extraction` the claim
holds: every item whose extraction returned nothing or whose name is the
`"Unknown Business"` placeholder is dropped from the returned record list
and counted by `failed_extractions` (never by `successful_extractions`,
which counts exactly the other items); `AdvancedContactExtractor.run_extraction`
instead appends every record unconditionally (the counterexample). -/
theorem c2_amended (items : List (Option GBusiness)) :
    (∀ d ∈ (gms_item_loop items).1, d.name ≠ ("Unknown Business").data) ∧
    (gms_item_loop items).2.2.1 = items.countP failedItem ∧
    (gms_item_loop items).2.1 = items.countP (fun it => !failedItem it) := by
  induction items with
  | nil => exact ⟨by simp [gms_item_loop], by simp [gms_item_loop], by simp [gms_item_loop]⟩
  | cons item rest ih =>
    obtain ⟨h1, h2, h3⟩ := ih
    match item with
    | some d =>
      by_cases hn : d.name = ("Unknown Business").data
      · refine ⟨?_, ?_, ?_⟩
        · intro x hx
          rw [gms_item_loop] at hx
          rw [if_neg (by simpa using hn)] at hx
          exact h1 x hx
        · rw [gms_item_loop, List.countP_cons]
          rw [if_neg (by simpa using hn)]
          simp [failedItem, hn, h2]
        · rw [gms_item_loop, List.countP_cons]
          rw [if_neg (by simpa using hn)]
          simp [failedItem, hn, h3]
      · refine ⟨?_, ?_, ?_⟩
        · intro x hx
          rw [gms_item_loop] at hx
          rw [if_pos hn] at hx
          rcases List.mem_cons.mp hx with h | h
          · exact h ▸ hn
          · exact h1 x h
        · rw [gms_item_loop, List.countP_cons]
          rw [if_pos hn]
          simp [failedItem, hn, h2]
        · rw [gms_item_loop, List.countP_cons]
          rw [if_pos hn]
          simp [failedItem, hn, h3]
    | none =>
      refine ⟨?_, ?_, ?_⟩
      · intro x hx
        rw [gms_item_loop] at hx
        exact h1 x hx
      · rw [gms_item_loop, List.countP_cons]
        simp [failedItem, h2]
      · rw [gms_item_loop, List.countP_cons]
        simp [failedItem, h3]

/-- C3 counterexample: the claim says a run whose link collection yields
zero references returns an empty record list, not a failure value.
`AdvancedContactExtractor.run_extraction` executes
`if not business_links: return False` — the caller receives Python
`False`, not `[]`. -/
theorem c3_counterexample :
    (adv_run_extraction true [] (fun _ => .ok none)).1 = AdvResult.failure ∧
    AdvResult.failure ≠ AdvResult.ok [] := by
  decide

/-- C3 amended: with a successful search and zero collected references,
`GoogleMapsBusinessScraper.run_extraction` returns the empty list without
raising (the model is a total function), while
`AdvancedContactExtractor.run_extraction` returns the failure value
`False`. -/
theorem c3_amended (item : Nat → Option GBusiness)
    (item2 : Nat → Except Unit (Option BizData)) :
    gms_run_extraction true [] item = [] ∧
    (adv_run_extraction true [] item2).1 = AdvResult.failure :=
  ⟨rfl, rfl⟩

/-- C4: on every exit path of `run_extraction` — normal return, the two
early failure returns, and any exception raised by the search, pagination
or per-item phase (the `Except`-valued oracles) — the `finally` clause
runs `cleanup`, which releases the automation surface via `driver.quit()`.
The second component of the model is exactly "the cleanup step released
the driver", and it is `true` for every oracle choice. -/
theorem c4_cleanup_always (searchOk : Bool) (links : List Str)
    (item : Nat → Except Unit (Option BizData)) :
    (adv_run_extraction searchOk links item).2 = true ∧ cleanup true = true := by
  refine ⟨?_, rfl⟩
  unfold adv_run_extraction
  cases adv_run_extraction_body searchOk links item <;> rfl

/-- C10: every reference returned by any of the three pagination engines
contains the substring `/maps/place/`, and in the advanced collector no
returned reference begins with `/` (a root-relative href is prefixed with
`https://www.google.com` before insertion, everything else is inserted
verbatim, so every returned reference is absolute).  The hypotheses state
what the query strings guarantee about the scan oracles: the advanced
collector's XPath `//a[contains(@href, "/maps/place/")]/@href` only yields
hrefs containing the marker, and the enhanced collector's last-resort
sweep (a regex whose every match contains `/maps/place/`, and a JS
`a[href*="/maps/place/"]` selector) only yields such links; the basic and
enhanced per-pass filters are explicit Python `'/maps/place/' in href`
checks and need no hypothesis. -/
theorem c10_place_filter (σa σb σe : List Str → List Str)
    (ha : SetOrder σa) (hb : SetOrder σb) (he : SetOrder σe)
    (panelFound failsA failsB failsE : Bool)
    (scanA : Nat → List Str)
    (hscanA : ∀ k, ∀ l ∈ scanA k, strContains l placeMarker = true)
    (endFlag : Nat → Bool) (scanB scanE : Nat → List (Option Str))
    (finalLinks : List Str)
    (hfin : ∀ y ∈ finalLinks, strContains y placeMarker = true)
    (mA mB mE : Nat) :
    (∀ x ∈ get_business_links_advanced σa panelFound failsA scanA endFlag mA,
      strContains x placeMarker = true ∧ (("/").data).isPrefixOf x = false) ∧
    (∀ x ∈ get_business_links σb failsB scanB mB,
      strContains x placeMarker = true) ∧
    (∀ x ∈ enh_get_business_links σe failsE scanE finalLinks mE,
      strContains x placeMarker = true) := by
  refine ⟨?_, ?_, ?_⟩
  · intro x hx
    unfold get_business_links_advanced at hx
    split at hx
    · simp at hx
    · split at hx
      · simp at hx
      · have hxl : x ∈ advLoop scanA endFlag mA (min 50 (mA / 10)) 0 0 []
            (min 50 (mA / 10)) :=
          ((ha _).mem_iff).mp (List.take_subset _ _ hx)
        rcases advLoop_mem scanA endFlag mA (min 50 (mA / 10)) _ _ _ [] x hxl with
          h | ⟨k, l, hl, he'⟩
        · simp at h
        · exact he' ▸ ⟨canonLink_contains (hscanA k l hl), canonLink_not_slash l⟩
  · intro x hx
    unfold get_business_links at hx
    split at hx
    · simp at hx
    · have hxl : x ∈ gmsLoop scanB mB 0 0 [] 8 :=
        ((hb _).mem_iff).mp (List.take_subset _ _ hx)
      rcases gmsLoop_mem scanB mB _ _ _ [] x hxl with h | h
      · simp at h
      · exact h
  · intro x hx
    unfold enh_get_business_links at hx
    split at hx
    · simp at hx
    · have hxl : x ∈ enhLoop scanE finalLinks mE 0 0 [] 200 :=
        ((he _).mem_iff).mp (List.take_subset _ _ hx)
      rcases enhLoop_mem scanE finalLinks mE hfin _ _ _ [] x hxl with h | h
      · simp at h
      · exact h

/-- C10 witness: the place-marker invariant at a concrete run of all
three engines. -/
theorem c10_witness :
    (∀ x ∈ get_business_links_advanced id true false
        (fun _ => [("/maps/place/a").data]) (fun _ => true) 20,
      strContains x placeMarker = true ∧ (("/").data).isPrefixOf x = false) ∧
    (∀ x ∈ get_business_links id false
        (fun _ => [some (("https://www.google.com/maps/place/a").data)]) 20,
      strContains x placeMarker = true) ∧
    (∀ x ∈ enh_get_business_links id false
        (fun _ => [some (("https://www.google.com/maps/place/b").data)])
        [("https://www.google.com/maps/place/c").data] 20,
      strContains x placeMarker = true) :=
  c10_place_filter id id id setOrder_id setOrder_id setOrder_id true false false false
    _ (fun k => by decide) _ _ _ _ (by decide) 20 20 20

end GMapScraper
